import Mathlib

/-!
# no-toto: the `fun` command (src/main.go)

A shallow embedding of `fun`, `funRun` and `getKeyCert` of `src/main.go`.

The program is a thin driver around the `in_toto` Go package; the package's
functions (`RecordArtifacts`, `RunCommand`, `Metablock.Sign`, `Metablock.Dump`,
`Key.LoadKeyDefaults`) and the operating-system calls (`os.Stat`,
`filepath.Join`) are not part of the repository.  They are taken as
parameters, bundled in `Ext`, acting on an abstract world `W` (file system,
processes, randomness).  Every call of an effectful external function is
appended to a ghost trace of `Event`s, so that "is invoked", "is never
invoked" and "in this order" can be stated.
-/

namespace NoToto

/-! ## Go values -/

/-- A Go slice value: `nil` is the nil slice, `mk l` a non-nil slice holding `l`. -/
inductive Slice (α : Type) where
  | nil : Slice α
  | mk (elems : List α) : Slice α
  deriving DecidableEq, Repr

/-- Go `len(s)`: the nil slice has length 0. -/
def Slice.len {α : Type} : Slice α → Nat
  | .nil => 0
  | .mk l => l.length

/-- The elements of a slice, in order (none for the nil slice). -/
def Slice.toList {α : Type} : Slice α → List α
  | .nil => []
  | .mk l => l

/-- A Go `error` value: one made by `fmt.Errorf` without `%w` (or by a
library), or one made by `fmt.Errorf("...: %w", err)`, which wraps `err`. -/
inductive GoError where
  | errorf (msg : String) : GoError
  | wrapf (msg : String) (inner : GoError) : GoError
  deriving DecidableEq, Repr

/-- The dynamic values stored in the `map[string]interface{}` maps of a link. -/
inductive GoVal where
  | str (s : String) : GoVal
  | int (i : Int) : GoVal
  | digests (d : List (String × String)) : GoVal
  deriving DecidableEq, Repr

/-- A `map[string]interface{}`, as its list of entries; `[]` is the empty map. -/
abbrev GoMap := List (String × GoVal)

deriving instance DecidableEq for Except

/-! ## The `in_toto` data types used by the program -/

/-- The `KeyVal` struct of package `in_toto`. -/
structure KeyVal where
  Private : String
  Public : String
  Certificate : String
  deriving DecidableEq, Repr

/-- The `Key` struct of package `in_toto`. -/
structure Key where
  KeyID : String
  KeyIDHashAlgorithms : Slice String
  KeyType : String
  KeyVal : KeyVal
  Scheme : String
  deriving DecidableEq, Repr

/-- The zero value `intoto.Key{}`: every string empty, the slice nil. -/
def Key.zero : Key :=
  { KeyID := "", KeyIDHashAlgorithms := .nil, KeyType := "",
    KeyVal := { Private := "", Public := "", Certificate := "" }, Scheme := "" }

/-- The test `reflect.ValueOf(key).IsZero()`: a struct is zero when all its
fields are. -/
def Key.IsZero (key : Key) : Bool :=
  key.KeyID == "" && key.KeyIDHashAlgorithms == .nil && key.KeyType == "" &&
    key.KeyVal.Private == "" && key.KeyVal.Public == "" &&
    key.KeyVal.Certificate == "" && key.Scheme == ""

/-- The `Signature` struct of package `in_toto`. -/
structure Signature where
  KeyID : String
  Sig : String
  deriving DecidableEq, Repr

/-- The `Link` struct of package `in_toto` (the field `Type` is spelled
`Type_`). -/
structure Link where
  Type_ : String
  Name : String
  Materials : GoMap
  Products : GoMap
  ByProducts : GoMap
  Command : Slice String
  Environment : GoMap
  deriving DecidableEq, Repr

/-- The `Metablock` struct of package `in_toto`.  `Signed` is an interface
value: `none` is the nil interface, `some l` holds an `intoto.Link`. -/
structure Metablock where
  Signed : Option Link
  Signatures : Slice Signature
  deriving DecidableEq, Repr

/-- The zero value of `Metablock`, as declared by `var linkMb intoto.Metablock`. -/
def Metablock.zero : Metablock := { Signed := none, Signatures := .nil }

/-! ## External calls and the ghost trace -/

/-- One call of an external effectful function, with its arguments and what
it returned. -/
inductive Event where
  | RecordArtifacts (paths : Slice String) (res : Except GoError GoMap) : Event
  | RunCommand (cmdArgs : Slice String) (runDir : String) (res : Except GoError GoMap) : Event
  | Sign (mb : Metablock) (key : Key) (err : Option GoError) : Event
  | Dump (mb : Metablock) (path : String) (err : Option GoError) : Event
  | Stat (path : String) (err : Option GoError) : Event
  | LoadKeyDefaults (path : String) (err : Option GoError) : Event
  deriving DecidableEq

/-- Is the event a call of `RunCommand`? -/
def Event.isRunCommand : Event → Bool
  | .RunCommand _ _ _ => true
  | _ => false

/-- Is the event a call of `Metablock.Sign`? -/
def Event.isSign : Event → Bool
  | .Sign _ _ _ => true
  | _ => false

/-- Is the event a call of `Metablock.Dump`? -/
def Event.isDump : Event → Bool
  | .Dump _ _ _ => true
  | _ => false

/-- The error an external call returned (`none` for a nil error). -/
def Event.err : Event → Option GoError
  | .RecordArtifacts _ (.error e) => some e
  | .RecordArtifacts _ (.ok _) => none
  | .RunCommand _ _ (.error e) => some e
  | .RunCommand _ _ (.ok _) => none
  | .Sign _ _ e => e
  | .Dump _ _ e => e
  | .Stat _ e => e
  | .LoadKeyDefaults _ e => e

/-- The external collaborators of the program, over a world `W`.
`Sign` and `LoadKeyDefaults` have pointer receivers.  `Sign` produces
signatures and leaves the signed payload alone: it returns the `Signatures`
field of its receiver as it leaves it, next to the error.
`LoadKeyDefaults` returns the key as it leaves it, next to the error. -/
structure Ext (W : Type) where
  RecordArtifacts : Slice String → Slice String → Slice String → Slice String →
    Bool → Bool → W → Except GoError GoMap × W
  RunCommand : Slice String → String → W → Except GoError GoMap × W
  Sign : Metablock → Key → W → (Slice Signature × Option GoError) × W
  Dump : Metablock → String → W → Option GoError × W
  Stat : String → W → Option GoError × W
  LoadKeyDefaults : Key → String → W → (Key × Option GoError) × W
  Join : String → String → String

/-- The outcome of running a piece of the program from a world: the values
it returns, the world it leaves, and the external calls it made, in order. -/
structure Run (W α : Type) where
  ret : α
  world : W
  trace : List Event

/-! ## `funRun` (src/main.go, lines 158-204) -/

/-- The function `funRun` of src/main.go. -/
def funRun {W : Type} (X : Ext W) (name : String) (runDir : String)
    (materialPaths : Slice String) (productPaths : Slice String)
    (cmdArgs : Slice String) (funArgs : Slice String) (key : Key)
    (hashAlgorithms : Slice String) (gitignorePatterns : Slice String)
    (lStripPaths : Slice String) (lineNormalization : Bool) (followSymlinkDirs : Bool)
    (w : W) : Run W (Metablock × Option GoError) :=
  let linkMb : Metablock := Metablock.zero
  match X.RecordArtifacts materialPaths hashAlgorithms gitignorePatterns lStripPaths
      lineNormalization followSymlinkDirs w with
  | (.error err, w1) =>
    ⟨(linkMb, some err), w1, [.RecordArtifacts materialPaths (.error err)]⟩
  | (.ok materials, w1) =>
    let t1 : List Event := [.RecordArtifacts materialPaths (.ok materials)]
    -- the code after the `if len(cmdArgs) != 0` block
    let rest (byProducts : GoMap) (w2 : W) (t2 : List Event) :
        Run W (Metablock × Option GoError) :=
      match X.RecordArtifacts productPaths hashAlgorithms gitignorePatterns lStripPaths
          lineNormalization followSymlinkDirs w2 with
      | (.error err, w3) =>
        ⟨(linkMb, some err), w3, t2 ++ [.RecordArtifacts productPaths (.error err)]⟩
      | (.ok products, w3) =>
        let t3 : List Event := t2 ++ [.RecordArtifacts productPaths (.ok products)]
        let linkMb : Metablock :=
          { Signed := some
              { Type_ := "link"
                Name := name
                Materials := materials
                Products := products
                ByProducts := byProducts
                Command := funArgs
                Environment := [] }
            Signatures := .mk [] }
        if !key.IsZero then
          match X.Sign linkMb key w3 with
          | ((sigs, some err), w4) =>
            ⟨({ linkMb with Signatures := sigs }, some err), w4,
              t3 ++ [.Sign linkMb key (some err)]⟩
          | ((sigs, none), w4) =>
            ⟨({ linkMb with Signatures := sigs }, none), w4, t3 ++ [.Sign linkMb key none]⟩
        else
          ⟨(linkMb, none), w3, t3⟩
    if cmdArgs.len ≠ 0 then
      match X.RunCommand cmdArgs runDir w1 with
      | (.error err, w2) =>
        ⟨(linkMb, some err), w2, t1 ++ [.RunCommand cmdArgs runDir (.error err)]⟩
      | (.ok byProducts, w2) =>
        rest byProducts w2 (t1 ++ [.RunCommand cmdArgs runDir (.ok byProducts)])
    else
      rest [] w1 t1

/-! ## Standard-library functions used by `fun` -/

/-- The scanning loop of Go `strings.Split` for a non-empty separator `sep`,
left to right: `cur` holds (reversed) the piece being read and `skip` counts
the characters of a separator occurrence still to be passed over.  An
occurrence of `sep` ends the current piece; the text after the last
occurrence (possibly empty) is the last piece. -/
def splitLoop (sep : List Char) : Nat → List Char → List Char → List (List Char)
  | _, cur, [] => [cur.reverse]
  | skip + 1, cur, _ :: cs => splitLoop sep skip cur cs
  | 0, cur, c :: cs =>
    if sep.isPrefixOf (c :: cs) then cur.reverse :: splitLoop sep (sep.length - 1) [] cs
    else splitLoop sep 0 (c :: cur) cs

/-- Go `strings.Split(s, sep)`.  With an empty `sep` the string is exploded
into its characters; otherwise it is cut at each occurrence of `sep`, and,
as the Go documentation puts it, "if s does not contain sep and sep is not
empty, Split returns a slice of length 1 whose only element is s". -/
def strings_Split (s : String) (sep : String) : Slice String :=
  if sep.data = [] then .mk (s.data.map fun c => String.mk [c])
  else .mk ((splitLoop sep.data 0 [] s.data).map String.mk)

/-- Go `fmt.Sprintf` on the fragment the program uses: a format made of
literal text, `%%`, `%s` and `%.Ns` (one-digit precision `N`), applied to
string operands, one per verb.  `%s` writes its operand, `%.Ns` writes at
most the first `N` characters of it.  Outside the fragment the result is
`none`. -/
def sprintfChars : List Char → List String → Option (List Char)
  | [], [] => some []
  | [], _ :: _ => none
  | '%' :: '%' :: fmt, args => (sprintfChars fmt args).map fun out => '%' :: out
  | '%' :: 's' :: fmt, a :: args => (sprintfChars fmt args).map fun out => a.data ++ out
  | '%' :: '.' :: d :: 's' :: fmt, a :: args =>
    if d.isDigit then
      (sprintfChars fmt args).map fun out => a.data.take (d.toNat - '0'.toNat) ++ out
    else none
  | '%' :: _, _ => none
  | c :: fmt, args => (sprintfChars fmt args).map fun out => c :: out

/-- Go `fmt.Sprintf(format, args...)` on the fragment of `sprintfChars`. -/
def Sprintf (format : String) (args : List String) : Option String :=
  (sprintfChars format.data args).map String.mk

/-- The constant `LinkNameFormat` of package `in_toto`, which the repository
imports: the format of a link file name, `<step name>.<short key id>.link`. -/
def LinkNameFormat : String := "%s.%.8s.link"

/-! ## The configuration `funConf` (src/main.go, lines 97-114) -/

/-- The global variable `funConf`. -/
structure FunConf where
  stepName : String
  runDir : String
  funArgStr : String
  materialsPaths : Slice String
  productsPaths : Slice String
  noCommand : Bool
  layoutPath : String
  keyPath : String
  certPath : String
  key : Key
  cert : Key
  lStripPaths : Slice String
  exclude : Slice String
  outDir : String
  lineNormalization : Bool
  followSymlinkDirs : Bool
  deriving DecidableEq, Repr

/-! ## `fun` (src/main.go, lines 129-156) -/

/-- What `fun` hands back to cobra: `nil`, an error, or no return at all when
the type assertion `block.Signed.(intoto.Link)` finds a nil interface. -/
inductive FunResult where
  | nil : FunResult
  | error (err : GoError) : FunResult
  | typeAssertFailed : FunResult
  deriving DecidableEq, Repr

/-- The file name `fmt.Sprintf(intoto.LinkNameFormat, name, keyID)` computed by
`fun` (line 147).  The format lies in the fragment of `Sprintf`
(`Sprintf_LinkNameFormat`), so the default is never used. -/
def linkName (name : String) (keyID : String) : String :=
  (Sprintf LinkNameFormat [name, keyID]).getD ""

/-- The function `fun` of src/main.go (`fun` is a keyword of Lean).  The
command's positional arguments are `args`; `funConf` is read, not written. -/
def fun_ {W : Type} (X : Ext W) (funConf : FunConf) (args : Slice String) (w : W) :
    Run W FunResult :=
  let funArgs := strings_Split funConf.funArgStr " "
  if funConf.noCommand && decide (args.len > 0) then
    ⟨.error (.errorf "command arguments passed with --no-command/-x flag"), w, []⟩
  else if !funConf.noCommand && decide (args.len = 0) then
    ⟨.error (.errorf
      "no command arguments passed, please specify or use --no-command option"), w, []⟩
  else
    let r := funRun X funConf.stepName funConf.runDir funConf.materialsPaths
      funConf.productsPaths args funArgs funConf.key (.mk ["sha256"]) funConf.exclude
      funConf.lStripPaths funConf.lineNormalization funConf.followSymlinkDirs w
    match r.ret with
    | (_, some err) =>
      ⟨.error (.wrapf "failed to create link metadata" err), r.world, r.trace⟩
    | (block, none) =>
      match block.Signed with
      | none => ⟨.typeAssertFailed, r.world, r.trace⟩
      | some link =>
        let linkPath := X.Join funConf.outDir (linkName link.Name funConf.key.KeyID)
        match X.Dump block linkPath r.world with
        | (some err, w') =>
          ⟨.error (.wrapf ("failed to write link metadata to " ++ linkPath) err), w',
            r.trace ++ [.Dump block linkPath (some err)]⟩
        | (none, w') => ⟨.nil, w', r.trace ++ [.Dump block linkPath none]⟩

/-! ## `getKeyCert` (src/main.go, lines 206-235) -/

/-- The function `getKeyCert` of src/main.go, the `PreRunE` hook of the
`fun` command.  It writes `funConf.key` and `funConf.cert`, so the
configuration it leaves is returned next to the error. -/
def getKeyCert {W : Type} (X : Ext W) (funConf : FunConf) (w : W) :
    Run W (Option GoError × FunConf) :=
  let funConf := { funConf with key := Key.zero, cert := Key.zero }
  if funConf.keyPath = "" ∧ funConf.certPath = "" then
    ⟨(some (.errorf "key or cert must be provided"), funConf), w, []⟩
  else
    -- the code from `if len(funConf.certPath) > 0` on
    let rest (funConf : FunConf) (w1 : W) (t1 : List Event) :
        Run W (Option GoError × FunConf) :=
      if funConf.certPath.length > 0 then
        match X.Stat funConf.certPath w1 with
        | (none, w2) =>
          match X.LoadKeyDefaults funConf.cert funConf.certPath w2 with
          | ((cert, some err), w3) =>
            ⟨(some (.wrapf ("invalid cert at " ++ funConf.certPath) err),
                { funConf with cert := cert }), w3,
              t1 ++ [.Stat funConf.certPath none,
                .LoadKeyDefaults funConf.certPath (some err)]⟩
          | ((cert, none), w3) =>
            ⟨(none, { funConf with
                cert := cert
                key := { funConf.key with
                  KeyVal := { funConf.key.KeyVal with
                    Certificate := cert.KeyVal.Certificate } } }), w3,
              t1 ++ [.Stat funConf.certPath none, .LoadKeyDefaults funConf.certPath none]⟩
        | (some err, w2) =>
          ⟨(some (.wrapf ("cert not found at " ++ funConf.certPath) err), funConf), w2,
            t1 ++ [.Stat funConf.certPath (some err)]⟩
      else ⟨(none, funConf), w1, t1⟩
    if funConf.keyPath.length > 0 then
      match X.Stat funConf.keyPath w with
      | (none, w1) =>
        match X.LoadKeyDefaults funConf.key funConf.keyPath w1 with
        | ((key, some err), w2) =>
          ⟨(some (.wrapf ("invalid key at " ++ funConf.keyPath) err),
              { funConf with key := key }), w2,
            [.Stat funConf.keyPath none, .LoadKeyDefaults funConf.keyPath (some err)]⟩
        | ((key, none), w2) =>
          rest { funConf with key := key } w2
            [.Stat funConf.keyPath none, .LoadKeyDefaults funConf.keyPath none]
      | (some err, w1) =>
        ⟨(some (.wrapf ("key not found at " ++ funConf.keyPath) err), funConf), w1,
          [.Stat funConf.keyPath (some err)]⟩
    else rest funConf w []

/-! ## Sample collaborators, for concrete runs

The world is the list of files written so far. -/

/-- Sample collaborators which all succeed: recording lists the given paths
with no digests, running a command creates one file per token and reports
exit status 0, signing appends a signature carrying the key id, dumping
creates the file, every path can be stat-ed, and loading a key takes the
path as key id. -/
def sampleExt : Ext (List String) where
  RecordArtifacts := fun paths _ _ _ _ _ w =>
    (.ok (paths.toList.map fun p => (p, GoVal.digests [])), w)
  RunCommand := fun cmdArgs _ w => (.ok [("return-value", GoVal.int 0)], w ++ cmdArgs.toList)
  Sign := fun mb key w => ((.mk (mb.Signatures.toList ++ [⟨key.KeyID, "sig"⟩]), none), w)
  Dump := fun _ path w => (none, w ++ [path])
  Stat := fun _ w => (none, w)
  LoadKeyDefaults := fun key path w => (({ key with KeyID := path }, none), w)
  Join := fun dir file => dir ++ file

/-- The sample collaborators, except that every recording of artifacts fails. -/
def failingRecordExt : Ext (List String) :=
  { sampleExt with
    RecordArtifacts := fun _ _ _ _ _ _ w => (.error (.errorf "unreadable file"), w) }

/-- A sample configuration: step `build`, no key, everything else at the
flag defaults of `setup`. -/
def sampleConf : FunConf where
  stepName := "build"
  runDir := ""
  funArgStr := ""
  materialsPaths := .mk []
  productsPaths := .mk []
  noCommand := false
  layoutPath := ""
  keyPath := ""
  certPath := ""
  key := Key.zero
  cert := Key.zero
  lStripPaths := .mk []
  exclude := .mk []
  outDir := "./"
  lineNormalization := false
  followSymlinkDirs := false

/-! ## Theorems -/

/-- C1. A call of `funRun` with the zero-value key in which the materials
recording, the command run (when `cmdArgs` is non-empty) and the products
recording succeed returns no error, never invokes `Sign`, and returns a
metablock whose `Signatures` is the non-nil empty slice. -/
theorem funRun_zero_key_unsigned {W : Type} (X : Ext W) (name runDir : String)
    (materialPaths productPaths cmdArgs funArgs hashAlgorithms gitignorePatterns
      lStripPaths : Slice String)
    (lineNormalization followSymlinkDirs : Bool) (w w1 w2 w3 : W)
    (materials byProducts products : GoMap)
    (hmat : X.RecordArtifacts materialPaths hashAlgorithms gitignorePatterns lStripPaths
      lineNormalization followSymlinkDirs w = (.ok materials, w1))
    (hcmd : (cmdArgs.len ≠ 0 ∧ X.RunCommand cmdArgs runDir w1 = (.ok byProducts, w2)) ∨
      (cmdArgs.len = 0 ∧ w2 = w1))
    (hprod : X.RecordArtifacts productPaths hashAlgorithms gitignorePatterns lStripPaths
      lineNormalization followSymlinkDirs w2 = (.ok products, w3)) :
    (funRun X name runDir materialPaths productPaths cmdArgs funArgs Key.zero
        hashAlgorithms gitignorePatterns lStripPaths lineNormalization followSymlinkDirs
        w).ret.2 = none ∧
    (∀ e ∈ (funRun X name runDir materialPaths productPaths cmdArgs funArgs Key.zero
        hashAlgorithms gitignorePatterns lStripPaths lineNormalization followSymlinkDirs
        w).trace, e.isSign = false) ∧
    (funRun X name runDir materialPaths productPaths cmdArgs funArgs Key.zero
        hashAlgorithms gitignorePatterns lStripPaths lineNormalization followSymlinkDirs
        w).ret.1.Signatures = Slice.mk [] := by
  have hz : Key.zero.IsZero = true := by decide
  rcases hcmd with ⟨hlen, hrun⟩ | ⟨hlen, rfl⟩
  · simp [funRun, hmat, hlen, hrun, hprod, hz, Event.isSign]
  · simp [funRun, hmat, hlen, hprod, hz, Event.isSign]

/-- Witness of C1: an unsigned `build` step running `echo ok`. -/
theorem funRun_zero_key_unsigned_witness :
    sampleExt.RecordArtifacts (.mk ["src"]) (.mk ["sha256"]) (.mk []) (.mk []) false false []
      = (.ok [("src", GoVal.digests [])], []) ∧
    sampleExt.RunCommand (.mk ["echo", "ok"]) "" []
      = (.ok [("return-value", GoVal.int 0)], ["echo", "ok"]) ∧
    sampleExt.RecordArtifacts (.mk ["out"]) (.mk ["sha256"]) (.mk []) (.mk []) false false
      ["echo", "ok"] = (.ok [("out", GoVal.digests [])], ["echo", "ok"]) ∧
    (funRun sampleExt "build" "" (.mk ["src"]) (.mk ["out"]) (.mk ["echo", "ok"])
        (.mk ["echo", "ok"]) Key.zero (.mk ["sha256"]) (.mk []) (.mk []) false false
        []).ret.2 = none ∧
    (∀ e ∈ (funRun sampleExt "build" "" (.mk ["src"]) (.mk ["out"]) (.mk ["echo", "ok"])
        (.mk ["echo", "ok"]) Key.zero (.mk ["sha256"]) (.mk []) (.mk []) false false
        []).trace, e.isSign = false) ∧
    (funRun sampleExt "build" "" (.mk ["src"]) (.mk ["out"]) (.mk ["echo", "ok"])
        (.mk ["echo", "ok"]) Key.zero (.mk ["sha256"]) (.mk []) (.mk []) false false
        []).ret.1.Signatures = Slice.mk [] :=
  ⟨rfl, rfl, rfl,
    funRun_zero_key_unsigned sampleExt "build" "" (.mk ["src"]) (.mk ["out"])
      (.mk ["echo", "ok"]) (.mk ["echo", "ok"]) (.mk ["sha256"]) (.mk []) (.mk []) false false
      [] [] ["echo", "ok"] ["echo", "ok"] [("src", GoVal.digests [])]
      [("return-value", GoVal.int 0)] [("out", GoVal.digests [])]
      rfl (Or.inl ⟨by decide, rfl⟩) rfl⟩

section FunRun

variable {W : Type} (X : Ext W) (name runDir : String)
  (materialPaths productPaths cmdArgs funArgs : Slice String) (key : Key)
  (hashAlgorithms gitignorePatterns lStripPaths : Slice String)
  (lineNormalization followSymlinkDirs : Bool) (w : W)

/-- Every call of `funRun` makes at least one external call (the materials
recording). -/
theorem funRun_trace_ne_nil :
    (funRun X name runDir materialPaths productPaths cmdArgs funArgs key hashAlgorithms
      gitignorePatterns lStripPaths lineNormalization followSymlinkDirs w).trace ≠ [] := by
  simp only [funRun]
  repeat' split
  all_goals simp

/-- The error `funRun` returns is the error returned by the last external
call it made. -/
theorem funRun_err_eq_last :
    (funRun X name runDir materialPaths productPaths cmdArgs funArgs key hashAlgorithms
      gitignorePatterns lStripPaths lineNormalization followSymlinkDirs w).ret.2 =
    (funRun X name runDir materialPaths productPaths cmdArgs funArgs key hashAlgorithms
      gitignorePatterns lStripPaths lineNormalization followSymlinkDirs w).trace.getLast?.bind
      Event.err := by
  simp only [funRun]
  repeat' split
  all_goals simp [Event.err]

/-- An external call of `funRun` that returns an error is the last call made. -/
theorem funRun_failed_is_last (e : Event) (err : GoError)
    (he : e ∈ (funRun X name runDir materialPaths productPaths cmdArgs funArgs key
      hashAlgorithms gitignorePatterns lStripPaths lineNormalization followSymlinkDirs
      w).trace)
    (herr : e.err = some err) :
    (funRun X name runDir materialPaths productPaths cmdArgs funArgs key hashAlgorithms
      gitignorePatterns lStripPaths lineNormalization followSymlinkDirs w).trace.getLast?
      = some e := by
  revert he
  simp only [funRun]
  repeat' split
  all_goals
    simp only [List.mem_append, List.mem_singleton, List.mem_cons, List.not_mem_nil,
      or_false]
    intro he
    (try casesm* _ ∨ _) <;> subst e <;> simp_all [Event.err]

/-- C4, as amended.  `funRun` does not validate the step name: for every name,
empty or not, it returns an error exactly when an external call it made
returned one (so the name itself never causes a failure), and when it returns
no error the returned metablock holds a link whose `Name` is the name given. -/
theorem funRun_name_not_validated :
    ((funRun X name runDir materialPaths productPaths cmdArgs funArgs key hashAlgorithms
        gitignorePatterns lStripPaths lineNormalization followSymlinkDirs w).ret.2 = none ↔
      ∀ e ∈ (funRun X name runDir materialPaths productPaths cmdArgs funArgs key hashAlgorithms
        gitignorePatterns lStripPaths lineNormalization followSymlinkDirs w).trace, e.err = none) ∧
    (∀ err, (funRun X name runDir materialPaths productPaths cmdArgs funArgs key hashAlgorithms
        gitignorePatterns lStripPaths lineNormalization followSymlinkDirs w).ret.2 = some err →
      ∃ e ∈ (funRun X name runDir materialPaths productPaths cmdArgs funArgs key hashAlgorithms
        gitignorePatterns lStripPaths lineNormalization followSymlinkDirs w).trace, e.err = some err) ∧
    ((funRun X name runDir materialPaths productPaths cmdArgs funArgs key hashAlgorithms
        gitignorePatterns lStripPaths lineNormalization followSymlinkDirs w).ret.2 = none →
      ∃ link, (funRun X name runDir materialPaths productPaths cmdArgs funArgs key hashAlgorithms
        gitignorePatterns lStripPaths lineNormalization followSymlinkDirs w).ret.1.Signed = some link ∧ link.Name = name) := by
  simp only [funRun]
  repeat' split
  all_goals simp [Event.err, Metablock.zero]

/-- C5, as amended.  With `cmdArgs` nil or empty `RunCommand` is never invoked
and a returned link has the empty `ByProducts`.  With `cmdArgs` non-empty
`RunCommand` is not invoked when the materials recording fails, and is
invoked exactly once, with `(cmdArgs, runDir)`, when it succeeds; a returned
link then has exactly the mapping `RunCommand` returned as `ByProducts`. -/
theorem funRun_runCommand_gate :
    (cmdArgs.len = 0 →
      (∀ e ∈ (funRun X name runDir materialPaths productPaths cmdArgs funArgs key hashAlgorithms
        gitignorePatterns lStripPaths lineNormalization followSymlinkDirs w).trace, e.isRunCommand = false) ∧
      (∀ link, (funRun X name runDir materialPaths productPaths cmdArgs funArgs key hashAlgorithms
        gitignorePatterns lStripPaths lineNormalization followSymlinkDirs w).ret.1.Signed = some link → link.ByProducts = [])) ∧
    (cmdArgs.len ≠ 0 →
      (∀ err w1, (X.RecordArtifacts materialPaths hashAlgorithms gitignorePatterns lStripPaths
          lineNormalization followSymlinkDirs w) = (.error err, w1) →
        ∀ e ∈ (funRun X name runDir materialPaths productPaths cmdArgs funArgs key hashAlgorithms
        gitignorePatterns lStripPaths lineNormalization followSymlinkDirs w).trace, e.isRunCommand = false) ∧
      (∀ materials w1, (X.RecordArtifacts materialPaths hashAlgorithms gitignorePatterns
          lStripPaths lineNormalization followSymlinkDirs w) = (.ok materials, w1) →
        (funRun X name runDir materialPaths productPaths cmdArgs funArgs key hashAlgorithms
        gitignorePatterns lStripPaths lineNormalization followSymlinkDirs w).trace.filter Event.isRunCommand =
          [Event.RunCommand cmdArgs runDir (X.RunCommand cmdArgs runDir w1).1] ∧
        (∀ link, (funRun X name runDir materialPaths productPaths cmdArgs funArgs key hashAlgorithms
        gitignorePatterns lStripPaths lineNormalization followSymlinkDirs w).ret.1.Signed = some link →
          (X.RunCommand cmdArgs runDir w1).1 = .ok link.ByProducts))) := by
  refine ⟨fun hlen => ?_, fun hlen => ⟨fun err w1 hm => ?_, fun materials w1 hm => ?_⟩⟩
  · simp only [funRun, hlen]
    repeat' split
    all_goals simp_all [Event.isRunCommand, Metablock.zero]
  · simp [funRun, hm, Event.isRunCommand]
  · simp only [funRun, hm, hlen]
    repeat' split
    all_goals simp_all [Event.isRunCommand, Metablock.zero, List.filter]

/-- C8. In a successful call of `funRun` with non-empty `cmdArgs` the external
calls are, in this order and each once: the recording of `materialPaths`,
`RunCommand`, the recording of `productPaths` (followed only by the signing,
if any).  Each starts in the world the previous one left, so the products are
recorded on the state left by the command; the link's `Materials` is the
result of the first recording and its `Products` the result of the second. -/
theorem funRun_phases_in_order (hlen : cmdArgs.len ≠ 0)
    (hok : (funRun X name runDir materialPaths productPaths cmdArgs funArgs key hashAlgorithms
        gitignorePatterns lStripPaths lineNormalization followSymlinkDirs w).ret.2 = none) :
    ∃ materials w1 byProducts w2 products w3 link signs,
      (X.RecordArtifacts materialPaths hashAlgorithms gitignorePatterns lStripPaths
        lineNormalization followSymlinkDirs w) = (.ok materials, w1) ∧
      X.RunCommand cmdArgs runDir w1 = (.ok byProducts, w2) ∧
      X.RecordArtifacts productPaths hashAlgorithms gitignorePatterns lStripPaths
        lineNormalization followSymlinkDirs w2 = (.ok products, w3) ∧
      (funRun X name runDir materialPaths productPaths cmdArgs funArgs key hashAlgorithms
        gitignorePatterns lStripPaths lineNormalization followSymlinkDirs w).trace =
        [Event.RecordArtifacts materialPaths (.ok materials),
          Event.RunCommand cmdArgs runDir (.ok byProducts),
          Event.RecordArtifacts productPaths (.ok products)] ++ signs ∧
      (∀ e ∈ signs, e.isSign = true) ∧
      (funRun X name runDir materialPaths productPaths cmdArgs funArgs key hashAlgorithms
        gitignorePatterns lStripPaths lineNormalization followSymlinkDirs w).ret.1.Signed = some link ∧
      link.Materials = materials ∧ link.Products = products := by
  revert hok
  simp only [funRun, hlen]
  repeat' split
  all_goals first
    | (intro hok; simp at hok; done)
    | (intro _
       refine ⟨_, _, _, _, _, _, _, _, ‹_›, ‹_›, ‹_›, rfl, ?_, rfl, rfl, rfl⟩
       simp [Event.isSign])

/-- A call of `funRun` never invokes `Dump`. -/
theorem funRun_no_dump :
    ∀ e ∈ (funRun X name runDir materialPaths productPaths cmdArgs funArgs key hashAlgorithms
        gitignorePatterns lStripPaths lineNormalization followSymlinkDirs w).trace, e.isDump = false := by
  simp only [funRun]
  repeat' split
  all_goals simp [Event.isDump]

/-- Every `RunCommand` call of `funRun` is made with `(cmdArgs, runDir)`. -/
theorem funRun_runCommand_args (c : Slice String) (d : String) (res : Except GoError GoMap)
    (h : Event.RunCommand c d res ∈ (funRun X name runDir materialPaths productPaths cmdArgs funArgs key hashAlgorithms
        gitignorePatterns lStripPaths lineNormalization followSymlinkDirs w).trace) :
    c = cmdArgs ∧ d = runDir := by
  revert h
  simp only [funRun]
  repeat' split
  all_goals simp
  all_goals intros; simp_all

/-- When `funRun` returns no error the metablock it returns holds a link with
the given name and with `funArgs` as `Command`. -/
theorem funRun_ok_link
    (hok : (funRun X name runDir materialPaths productPaths cmdArgs funArgs key hashAlgorithms
        gitignorePatterns lStripPaths lineNormalization followSymlinkDirs w).ret.2 = none) :
    ∃ link, (funRun X name runDir materialPaths productPaths cmdArgs funArgs key hashAlgorithms
        gitignorePatterns lStripPaths lineNormalization followSymlinkDirs w).ret.1.Signed = some link ∧ link.Name = name ∧ link.Command = funArgs := by
  revert hok
  simp only [funRun]
  repeat' split
  all_goals simp

end FunRun

section Fun

variable {W : Type} (X : Ext W) (funConf : FunConf) (args : Slice String) (w : W)

/-- What `fun` does once its arguments are accepted, in terms of the call of
`funRun` it makes. -/
theorem fun_accepted
    (hacc : ¬ ((funConf.noCommand = true ∧ args.len > 0) ∨
      (funConf.noCommand = false ∧ args.len = 0))) :
    (∃ err,
      (funRun X funConf.stepName funConf.runDir funConf.materialsPaths
        funConf.productsPaths args (strings_Split funConf.funArgStr " ") funConf.key
        (.mk ["sha256"]) funConf.exclude funConf.lStripPaths funConf.lineNormalization
        funConf.followSymlinkDirs w).ret.2 = some err ∧
      (fun_ X funConf args w).ret = .error (.wrapf "failed to create link metadata" err) ∧
      (fun_ X funConf args w).trace =
        (funRun X funConf.stepName funConf.runDir funConf.materialsPaths
          funConf.productsPaths args (strings_Split funConf.funArgStr " ") funConf.key
          (.mk ["sha256"]) funConf.exclude funConf.lStripPaths funConf.lineNormalization
          funConf.followSymlinkDirs w).trace) ∨
    (∃ block link err,
      (funRun X funConf.stepName funConf.runDir funConf.materialsPaths
        funConf.productsPaths args (strings_Split funConf.funArgStr " ") funConf.key
        (.mk ["sha256"]) funConf.exclude funConf.lStripPaths funConf.lineNormalization
        funConf.followSymlinkDirs w).ret = (block, none) ∧
      block.Signed = some link ∧ link.Name = funConf.stepName ∧
      link.Command = strings_Split funConf.funArgStr " " ∧
      (err = none → (fun_ X funConf args w).ret = .nil) ∧
      (∀ e, err = some e → ∃ msg, (fun_ X funConf args w).ret = .error (.wrapf msg e)) ∧
      (fun_ X funConf args w).trace =
        (funRun X funConf.stepName funConf.runDir funConf.materialsPaths
          funConf.productsPaths args (strings_Split funConf.funArgStr " ") funConf.key
          (.mk ["sha256"]) funConf.exclude funConf.lStripPaths funConf.lineNormalization
          funConf.followSymlinkDirs w).trace ++
        [Event.Dump block
          (X.Join funConf.outDir (linkName funConf.stepName funConf.key.KeyID)) err]) := by
  have hlink := funRun_ok_link X funConf.stepName funConf.runDir funConf.materialsPaths
    funConf.productsPaths args (strings_Split funConf.funArgStr " ") funConf.key
    (.mk ["sha256"]) funConf.exclude funConf.lStripPaths funConf.lineNormalization
    funConf.followSymlinkDirs w
  have h1 : ¬ ((funConf.noCommand && decide (args.len > 0)) = true) := by
    intro h; apply hacc; left; simpa using h
  have h2 : ¬ ((!funConf.noCommand && decide (args.len = 0)) = true) := by
    intro h; apply hacc; right; simpa using h
  simp only [fun_, h1, h2, if_false]
  generalize (funRun X funConf.stepName funConf.runDir funConf.materialsPaths
    funConf.productsPaths args (strings_Split funConf.funArgStr " ") funConf.key
    (.mk ["sha256"]) funConf.exclude funConf.lStripPaths funConf.lineNormalization
    funConf.followSymlinkDirs w) = r at hlink ⊢
  rcases r with ⟨⟨block, _ | err⟩, w1, t⟩
  · obtain ⟨link, hs, hn, hc⟩ := hlink rfl
    right
    simp only at hs
    rcases hd : X.Dump block
      (X.Join funConf.outDir (linkName funConf.stepName funConf.key.KeyID)) w1
      with ⟨_ | e, w2⟩
    · exact ⟨block, link, none, by simp [hs, hn, hc, hd]⟩
    · exact ⟨block, link, some e, by simp [hs, hn, hc, hd]⟩
  · left
    exact ⟨err, by simp⟩

/-- What `fun` does when it rejects its arguments: an error, no external
call, the world untouched. -/
theorem fun_rejected
    (hbad : (funConf.noCommand = true ∧ args.len > 0) ∨
      (funConf.noCommand = false ∧ args.len = 0)) :
    (∃ msg, (fun_ X funConf args w).ret = .error (.errorf msg)) ∧
    (fun_ X funConf args w).trace = [] ∧ (fun_ X funConf args w).world = w := by
  rcases hbad with ⟨h1, h2⟩ | ⟨h1, h2⟩
  · simp [fun_, h1, h2]
  · have h3 : ¬ (0 < args.len) := by omega
    simp [fun_, h1, h2]

/-- C9. `fun` rejects its arguments (returns an error having made no external
call and left the world untouched) exactly when `--no-command` is set and a
positional argument is given, or `--no-command` is not set and no positional
argument is given.  In every other case it calls `funRun` with the positional
arguments as `cmdArgs`: its external calls are those of that call, followed
only by `Dump`, and every `RunCommand` is given the positional arguments. -/
theorem fun_rejects_arguments_iff :
    (((∃ err, (fun_ X funConf args w).ret = .error err) ∧
        (fun_ X funConf args w).trace = [] ∧ (fun_ X funConf args w).world = w) ↔
      ((funConf.noCommand = true ∧ args.len > 0) ∨
        (funConf.noCommand = false ∧ args.len = 0))) ∧
    (¬ ((funConf.noCommand = true ∧ args.len > 0) ∨
        (funConf.noCommand = false ∧ args.len = 0)) →
      ∃ dump, (fun_ X funConf args w).trace = (funRun X funConf.stepName funConf.runDir funConf.materialsPaths
        funConf.productsPaths args (strings_Split funConf.funArgStr " ") funConf.key
        (.mk ["sha256"]) funConf.exclude funConf.lStripPaths funConf.lineNormalization
        funConf.followSymlinkDirs w).trace ++ dump ∧
        (∀ e ∈ dump, e.isDump = true) ∧
        ∀ c d res, Event.RunCommand c d res ∈ (fun_ X funConf args w).trace → c = args) := by
  have hne := funRun_trace_ne_nil X funConf.stepName funConf.runDir funConf.materialsPaths
    funConf.productsPaths args (strings_Split funConf.funArgStr " ") funConf.key
    (.mk ["sha256"]) funConf.exclude funConf.lStripPaths funConf.lineNormalization
    funConf.followSymlinkDirs w
  have hrc := funRun_runCommand_args X funConf.stepName funConf.runDir funConf.materialsPaths
    funConf.productsPaths args (strings_Split funConf.funArgStr " ") funConf.key
    (.mk ["sha256"]) funConf.exclude funConf.lStripPaths funConf.lineNormalization
    funConf.followSymlinkDirs w
  refine ⟨⟨fun h => ?_, fun h => ?_⟩, fun hacc => ?_⟩
  · by_contra hacc
    rcases fun_accepted X funConf args w hacc with ⟨err, _, _, ht⟩ | ⟨b, l, err, _, _, _, _, _, _, ht⟩
    · exact hne (ht ▸ h.2.1)
    · have := h.2.1
      rw [ht] at this
      simp at this
  · obtain ⟨⟨msg, hm⟩, ht, hw⟩ := fun_rejected X funConf args w h
    exact ⟨⟨_, hm⟩, ht, hw⟩
  · rcases fun_accepted X funConf args w hacc with ⟨err, _, _, ht⟩ | ⟨b, l, err, _, _, _, _, _, _, ht⟩
    · refine ⟨[], by simp [ht], by simp, fun c d res hin => ?_⟩
      rw [ht] at hin
      exact (hrc c d res hin).1
    · refine ⟨_, ht, by simp [Event.isDump], fun c d res hin => ?_⟩
      rw [ht] at hin
      simp only [List.mem_append, List.mem_singleton] at hin
      rcases hin with hin | hin
      · exact (hrc c d res hin).1
      · cases hin

/-- C6. If, in a run of `fun`, the materials recording, the command run, the
products recording or the signing returns an error, then `funRun` returns that
same error and the failing call is the last external call made (no later step
is invoked), `fun` returns an error wrapping it, and `Dump` is never called. -/
theorem fun_step_error_aborts (e : Event) (err : GoError)
    (he : e ∈ (fun_ X funConf args w).trace) (hstep : e.isDump = false)
    (herr : e.err = some err) :
    (funRun X funConf.stepName funConf.runDir funConf.materialsPaths
        funConf.productsPaths args (strings_Split funConf.funArgStr " ") funConf.key
        (.mk ["sha256"]) funConf.exclude funConf.lStripPaths funConf.lineNormalization
        funConf.followSymlinkDirs w).ret.2 = some err ∧
    (funRun X funConf.stepName funConf.runDir funConf.materialsPaths
        funConf.productsPaths args (strings_Split funConf.funArgStr " ") funConf.key
        (.mk ["sha256"]) funConf.exclude funConf.lStripPaths funConf.lineNormalization
        funConf.followSymlinkDirs w).trace.getLast? = some e ∧
    (fun_ X funConf args w).trace = (funRun X funConf.stepName funConf.runDir funConf.materialsPaths
        funConf.productsPaths args (strings_Split funConf.funArgStr " ") funConf.key
        (.mk ["sha256"]) funConf.exclude funConf.lStripPaths funConf.lineNormalization
        funConf.followSymlinkDirs w).trace ∧
    (fun_ X funConf args w).ret = .error (.wrapf "failed to create link metadata" err) ∧
    ∀ e' ∈ (fun_ X funConf args w).trace, e'.isDump = false := by
  have hlast := funRun_failed_is_last X funConf.stepName funConf.runDir funConf.materialsPaths
    funConf.productsPaths args (strings_Split funConf.funArgStr " ") funConf.key
    (.mk ["sha256"]) funConf.exclude funConf.lStripPaths funConf.lineNormalization
    funConf.followSymlinkDirs w e err
  have herrlast := funRun_err_eq_last X funConf.stepName funConf.runDir funConf.materialsPaths
    funConf.productsPaths args (strings_Split funConf.funArgStr " ") funConf.key
    (.mk ["sha256"]) funConf.exclude funConf.lStripPaths funConf.lineNormalization
    funConf.followSymlinkDirs w
  have hnd := funRun_no_dump X funConf.stepName funConf.runDir funConf.materialsPaths
    funConf.productsPaths args (strings_Split funConf.funArgStr " ") funConf.key
    (.mk ["sha256"]) funConf.exclude funConf.lStripPaths funConf.lineNormalization
    funConf.followSymlinkDirs w
  by_cases hbad : (funConf.noCommand = true ∧ args.len > 0) ∨
      (funConf.noCommand = false ∧ args.len = 0)
  · have ht := (fun_rejected X funConf args w hbad).2.1
    rw [ht] at he
    cases he
  · rcases fun_accepted X funConf args w hbad with
      ⟨err', hr, hret, ht⟩ | ⟨b, l, derr, hr, _, _, _, _, _, ht⟩
    · rw [ht] at he
      have hl := hlast he herr
      have h2 := herrlast
      rw [hl, hr] at h2
      simp only [Option.bind, herr, Option.some.injEq] at h2
      subst h2
      exact ⟨hr, hl, ht, hret, by rw [ht]; exact hnd⟩
    · rw [ht] at he
      simp only [List.mem_append, List.mem_singleton] at he
      rcases he with he | he
      · have hl := hlast he herr
        rw [hl, hr] at herrlast
        simp [herr] at herrlast
      · subst he
        simp [Event.isDump] at hstep

/-- A successful run of `fun` ends with the `Dump` of a metablock whose link
has `strings.Split(funArgStr, " ")` as `Command`; every `RunCommand` it made
was given the positional arguments and `runDir`. -/
theorem fun_ok_dump (hok : (fun_ X funConf args w).ret = .nil) :
    ∃ block path link,
      (fun_ X funConf args w).trace.getLast? = some (Event.Dump block path none) ∧
      block.Signed = some link ∧
      link.Command = strings_Split funConf.funArgStr " " ∧
      ∀ c d res, Event.RunCommand c d res ∈ (fun_ X funConf args w).trace →
        c = args ∧ d = funConf.runDir := by
  have hrc := funRun_runCommand_args X funConf.stepName funConf.runDir funConf.materialsPaths
    funConf.productsPaths args (strings_Split funConf.funArgStr " ") funConf.key
    (.mk ["sha256"]) funConf.exclude funConf.lStripPaths funConf.lineNormalization
    funConf.followSymlinkDirs w
  by_cases hbad : (funConf.noCommand = true ∧ args.len > 0) ∨
      (funConf.noCommand = false ∧ args.len = 0)
  · obtain ⟨⟨msg, hm⟩, _⟩ := fun_rejected X funConf args w hbad
    rw [hm] at hok
    cases hok
  · rcases fun_accepted X funConf args w hbad with
      ⟨err', _, hret, _⟩ | ⟨b, l, derr, _, hs, _, hc, _, hderr, ht⟩
    · rw [hret] at hok
      cases hok
    · cases derr with
      | some e =>
        obtain ⟨msg, hm⟩ := hderr e rfl
        rw [hm] at hok
        cases hok
      | none =>
        refine ⟨b, X.Join funConf.outDir (linkName funConf.stepName funConf.key.KeyID), l,
          by rw [ht]; simp, hs, hc, fun c d res hin => ?_⟩
        rw [ht] at hin
        simp only [List.mem_append, List.mem_singleton] at hin
        rcases hin with hin | hin
        · exact hrc c d res hin
        · cases hin

/-- C2, as the code has it.  In every successful run of `fun` with `--lol` left
at its default `""` (the no-command case included) the link that is dumped has
the command sequence `strings.Split("", " ")`, which is the one-element
sequence holding the empty string: its length is 1, not 0. -/
theorem fun_default_lol_command (hlol : funConf.funArgStr = "")
    (hok : (fun_ X funConf args w).ret = .nil) :
    ∃ block path link,
      (fun_ X funConf args w).trace.getLast? = some (Event.Dump block path none) ∧
      block.Signed = some link ∧ link.Command = Slice.mk [""] ∧ link.Command.len = 1 := by
  obtain ⟨block, path, link, hl, hs, hc, _⟩ := fun_ok_dump X funConf args w hok
  have hsplit : strings_Split "" " " = Slice.mk [""] := by decide
  rw [hlol, hsplit] at hc
  exact ⟨block, path, link, hl, hs, hc, by rw [hc]; rfl⟩

/-- C3, as the code has it.  In every successful run of `fun` the command
stored in the link is `strings.Split(funArgStr, " ")`, the tokens of the
`--lol` flag, whatever the positional arguments are; the tokens passed to
`RunCommand` are the positional arguments.  The stored command is therefore
not the executed one, which is what the long description of the `fun` command
(lines 119-123) says is stored. -/
theorem fun_command_is_lol (hok : (fun_ X funConf args w).ret = .nil) :
    ∃ block path link,
      (fun_ X funConf args w).trace.getLast? = some (Event.Dump block path none) ∧
      block.Signed = some link ∧
      link.Command = strings_Split funConf.funArgStr " " ∧
      ∀ c d res, Event.RunCommand c d res ∈ (fun_ X funConf args w).trace →
        c = args ∧ d = funConf.runDir :=
  fun_ok_dump X funConf args w hok

end Fun

/-- Witness of C2: the unsigned no-command run of step `build`. -/
theorem fun_default_lol_command_witness :
    ({ sampleConf with noCommand := true }).funArgStr = "" ∧
    (fun_ sampleExt { sampleConf with noCommand := true } (.mk []) []).ret = .nil ∧
    ∃ block path link,
      (fun_ sampleExt { sampleConf with noCommand := true } (.mk []) []).trace.getLast?
        = some (Event.Dump block path none) ∧
      block.Signed = some link ∧ link.Command = Slice.mk [""] ∧ link.Command.len = 1 :=
  ⟨rfl, by decide,
    fun_default_lol_command sampleExt { sampleConf with noCommand := true } (.mk []) [] rfl
      (by decide)⟩

/-- The code at the failing input of C3: `fun` runs `rm -rf src` and succeeds,
while the link it dumps records the command `make test` given with `--lol`. -/
theorem fun_command_not_the_executed_one :
    (fun_ sampleExt { sampleConf with funArgStr := "make test" }
      (.mk ["rm", "-rf", "src"]) []).ret = .nil ∧
    (fun_ sampleExt { sampleConf with funArgStr := "make test" }
      (.mk ["rm", "-rf", "src"]) []).trace =
      [Event.RecordArtifacts (.mk []) (.ok []),
        Event.RunCommand (.mk ["rm", "-rf", "src"]) "" (.ok [("return-value", GoVal.int 0)]),
        Event.RecordArtifacts (.mk []) (.ok []),
        Event.Dump
          { Signed := some
              { Type_ := "link", Name := "build", Materials := [], Products := [],
                ByProducts := [("return-value", GoVal.int 0)],
                Command := .mk ["make", "test"], Environment := [] }
            Signatures := .mk [] }
          "./build..link" none] ∧
    (Slice.mk ["make", "test"] : Slice String) ≠ Slice.mk ["rm", "-rf", "src"] := by
  decide

/-- Witness of C3, on the run that executes `rm -rf src` with `--lol "make test"`. -/
theorem fun_command_is_lol_witness :
    (fun_ sampleExt { sampleConf with funArgStr := "make test" }
      (.mk ["rm", "-rf", "src"]) []).ret = .nil ∧
    ∃ block path link,
      (fun_ sampleExt { sampleConf with funArgStr := "make test" }
        (.mk ["rm", "-rf", "src"]) []).trace.getLast? = some (Event.Dump block path none) ∧
      block.Signed = some link ∧
      link.Command = strings_Split "make test" " " ∧
      ∀ c d res, Event.RunCommand c d res ∈
          (fun_ sampleExt { sampleConf with funArgStr := "make test" }
            (.mk ["rm", "-rf", "src"]) []).trace →
        c = .mk ["rm", "-rf", "src"] ∧ d = "" :=
  ⟨by decide,
    fun_command_is_lol sampleExt { sampleConf with funArgStr := "make test" }
      (.mk ["rm", "-rf", "src"]) [] (by decide)⟩

/-- Counterexample to C4: called with the empty step name, `funRun` returns no
error and an assembled link whose `Name` is empty. -/
theorem funRun_empty_name_succeeds :
    (funRun sampleExt "" "" (.mk ["src"]) (.mk ["out"]) (.mk ["echo", "ok"])
      (.mk ["echo", "ok"]) Key.zero (.mk ["sha256"]) (.mk []) (.mk []) false false []).ret =
      ({ Signed := some
            { Type_ := "link", Name := "", Materials := [("src", GoVal.digests [])],
              Products := [("out", GoVal.digests [])],
              ByProducts := [("return-value", GoVal.int 0)],
              Command := .mk ["echo", "ok"], Environment := [] },
          Signatures := .mk [] }, none) := by
  decide

/-- Witness of C4 as amended, at the empty step name. -/
theorem funRun_name_not_validated_witness :
    (funRun sampleExt "" "" (.mk ["src"]) (.mk ["out"]) (.mk ["echo", "ok"])
      (.mk ["echo", "ok"]) Key.zero (.mk ["sha256"]) (.mk []) (.mk []) false false []).ret.2 = none ∧
    ∃ link, (funRun sampleExt "" "" (.mk ["src"]) (.mk ["out"]) (.mk ["echo", "ok"])
      (.mk ["echo", "ok"]) Key.zero (.mk ["sha256"]) (.mk []) (.mk []) false false []).ret.1.Signed = some link ∧ link.Name = "" :=
  ⟨by decide,
    (funRun_name_not_validated sampleExt "" "" (.mk ["src"]) (.mk ["out"]) (.mk ["echo", "ok"])
      (.mk ["echo", "ok"]) Key.zero (.mk ["sha256"]) (.mk []) (.mk []) false false []).2.2
      (by decide)⟩

/-- Counterexample to C5: with the non-empty `cmdArgs` `echo ok` and a
materials recording that fails, `RunCommand` is invoked zero times. -/
theorem funRun_runCommand_not_invoked :
    (Slice.mk ["echo", "ok"]).len ≠ 0 ∧
    (funRun failingRecordExt "build" "" (.mk ["src"]) (.mk ["out"]) (.mk ["echo", "ok"])
      (.mk ["echo", "ok"]) Key.zero (.mk ["sha256"]) (.mk []) (.mk []) false false []).trace = [Event.RecordArtifacts (.mk ["src"]) (.error (.errorf "unreadable file"))] ∧
    (funRun failingRecordExt "build" "" (.mk ["src"]) (.mk ["out"]) (.mk ["echo", "ok"])
      (.mk ["echo", "ok"]) Key.zero (.mk ["sha256"]) (.mk []) (.mk []) false false []).trace.countP Event.isRunCommand = 0 := by
  decide

/-- Witness of C5 as amended: `echo ok` is run once. -/
theorem funRun_runCommand_gate_witness :
    (Slice.mk ["echo", "ok"]).len ≠ 0 ∧
    (funRun sampleExt "build" "" (.mk ["src"]) (.mk ["out"]) (.mk ["echo", "ok"])
      (.mk ["echo", "ok"]) Key.zero (.mk ["sha256"]) (.mk []) (.mk []) false false []).trace.filter Event.isRunCommand =
      [Event.RunCommand (.mk ["echo", "ok"]) "" (.ok [("return-value", GoVal.int 0)])] :=
  ⟨by decide,
    (((funRun_runCommand_gate sampleExt "build" "" (.mk ["src"]) (.mk ["out"])
      (.mk ["echo", "ok"]) (.mk ["echo", "ok"]) Key.zero (.mk ["sha256"]) (.mk []) (.mk [])
      false false []).2 (by decide)).2 [("src", GoVal.digests [])] [] rfl).1⟩

/-- Witness of C8: the unsigned `build` step running `echo ok`. -/
theorem funRun_phases_in_order_witness :
    (Slice.mk ["echo", "ok"]).len ≠ 0 ∧
    (funRun sampleExt "build" "" (.mk ["src"]) (.mk ["out"]) (.mk ["echo", "ok"])
      (.mk ["echo", "ok"]) Key.zero (.mk ["sha256"]) (.mk []) (.mk []) false false []).ret.2 = none ∧
    ∃ materials w1 byProducts w2 products w3 link signs,
      sampleExt.RecordArtifacts (.mk ["src"]) (.mk ["sha256"]) (.mk []) (.mk []) false false []
        = (.ok materials, w1) ∧
      sampleExt.RunCommand (.mk ["echo", "ok"]) "" w1 = (.ok byProducts, w2) ∧
      sampleExt.RecordArtifacts (.mk ["out"]) (.mk ["sha256"]) (.mk []) (.mk []) false false w2
        = (.ok products, w3) ∧
      (funRun sampleExt "build" "" (.mk ["src"]) (.mk ["out"]) (.mk ["echo", "ok"])
      (.mk ["echo", "ok"]) Key.zero (.mk ["sha256"]) (.mk []) (.mk []) false false []).trace =
        [Event.RecordArtifacts (.mk ["src"]) (.ok materials),
          Event.RunCommand (.mk ["echo", "ok"]) "" (.ok byProducts),
          Event.RecordArtifacts (.mk ["out"]) (.ok products)] ++ signs ∧
      (∀ e ∈ signs, e.isSign = true) ∧
      (funRun sampleExt "build" "" (.mk ["src"]) (.mk ["out"]) (.mk ["echo", "ok"])
      (.mk ["echo", "ok"]) Key.zero (.mk ["sha256"]) (.mk []) (.mk []) false false []).ret.1.Signed = some link ∧
      link.Materials = materials ∧ link.Products = products :=
  ⟨by decide, by decide,
    funRun_phases_in_order sampleExt "build" "" (.mk ["src"]) (.mk ["out"])
      (.mk ["echo", "ok"]) (.mk ["echo", "ok"]) Key.zero (.mk ["sha256"]) (.mk []) (.mk [])
      false false [] (by decide) (by decide)⟩

/-- Witness of C6: a run of `fun` whose materials recording fails. -/
theorem fun_step_error_aborts_witness :
    Event.RecordArtifacts (.mk []) (.error (.errorf "unreadable file")) ∈
      (fun_ failingRecordExt sampleConf (.mk ["echo", "ok"]) []).trace ∧
    (fun_ failingRecordExt sampleConf (.mk ["echo", "ok"]) []).ret =
      .error (.wrapf "failed to create link metadata" (.errorf "unreadable file")) ∧
    ∀ e ∈ (fun_ failingRecordExt sampleConf (.mk ["echo", "ok"]) []).trace,
      e.isDump = false :=
  ⟨by decide,
    (fun_step_error_aborts failingRecordExt sampleConf (.mk ["echo", "ok"]) []
      (Event.RecordArtifacts (.mk []) (.error (.errorf "unreadable file")))
      (.errorf "unreadable file") (by decide) rfl rfl).2.2.2.1,
    (fun_step_error_aborts failingRecordExt sampleConf (.mk ["echo", "ok"]) []
      (Event.RecordArtifacts (.mk []) (.error (.errorf "unreadable file")))
      (.errorf "unreadable file") (by decide) rfl rfl).2.2.2.2⟩

/-- Witness of C9: without `--no-command` and without positional arguments
`fun` rejects its arguments. -/
theorem fun_rejects_arguments_iff_witness :
    (sampleConf.noCommand = false ∧ (Slice.nil : Slice String).len = 0) ∧
    (∃ err, (fun_ sampleExt sampleConf .nil []).ret = .error err) ∧
    (fun_ sampleExt sampleConf .nil []).trace = [] ∧
    (fun_ sampleExt sampleConf .nil []).world = [] :=
  ⟨⟨rfl, rfl⟩,
    (fun_rejects_arguments_iff sampleExt sampleConf .nil []).1.2 (Or.inr ⟨rfl, rfl⟩)⟩

/-! ### The link file name -/

/-- The format `LinkNameFormat` lies in the fragment of `Sprintf`: the result
is the name, a dot, the first 8 characters of the key id, and `.link`. -/
theorem Sprintf_LinkNameFormat (n k : String) :
    Sprintf LinkNameFormat [n, k] =
      some (String.mk (n.data ++ '.' :: (k.data.take 8 ++ ['.', 'l', 'i', 'n', 'k']))) := by
  simp [Sprintf, LinkNameFormat, sprintfChars]

/-- The characters of the file name computed by `fun`. -/
theorem linkName_data (n k : String) :
    (linkName n k).data = n.data ++ '.' :: (k.data.take 8 ++ ['.', 'l', 'i', 'n', 'k']) := by
  simp [linkName, Sprintf_LinkNameFormat]

/-- Two lists cut at the last occurrence of a separator `c` are equal only if
the parts before and after it are. -/
theorem append_sep_inj {α : Type} (c : α) :
    ∀ (a b x y : List α), c ∉ x → c ∉ y → a ++ c :: x = b ++ c :: y → a = b ∧ x = y
  | [], [], x, y, _, _, h => by simpa using h
  | [], d :: b, x, y, hx, _, h => by
    simp only [List.nil_append, List.cons_append, List.cons.injEq] at h
    exact absurd (h.2 ▸ (by simp : c ∈ b ++ c :: y)) hx
  | d :: a, [], x, y, _, hy, h => by
    simp only [List.nil_append, List.cons_append, List.cons.injEq] at h
    exact absurd (h.2 ▸ (by simp : c ∈ a ++ c :: x)) hy
  | d :: a, e :: b, x, y, hx, hy, h => by
    simp only [List.cons_append, List.cons.injEq] at h
    obtain ⟨hab, hxy⟩ := append_sep_inj c a b x y hx hy h.2
    exact ⟨by rw [h.1, hab], hxy⟩

/-- Counterexample to C7: two different key ids with the same first 8
characters give the same file name for step `build`; so do step `a.b` with
key id `c` and step `a` with key id `b.c`. -/
theorem linkName_not_injective :
    (("build", "0123456789abcdef") : String × String) ≠ ("build", "01234567ffffffff") ∧
    linkName "build" "0123456789abcdef" = linkName "build" "01234567ffffffff" ∧
    (("a.b", "c") : String × String) ≠ ("a", "b.c") ∧
    linkName "a.b" "c" = linkName "a" "b.c" := by
  decide

/-- C7, as amended.  The file name is the step name, a dot, the first 8
characters of the key id, and `.link`.  For key ids whose first 8 characters
hold no dot (hexadecimal key ids, and the empty id of an unset key) two file
names are equal exactly when the step names are equal and the key ids agree
on their first 8 characters.  This is about the file-name string only, not
about the path `filepath.Join(outDir, name)` that `fun` writes to. -/
theorem linkName_eq_iff (n1 n2 k1 k2 : String)
    (h1 : '.' ∉ k1.data.take 8) (h2 : '.' ∉ k2.data.take 8) :
    linkName n1 k1 = linkName n2 k2 ↔ n1 = n2 ∧ k1.data.take 8 = k2.data.take 8 := by
  constructor
  · intro h
    have hd := congrArg String.data h
    rw [linkName_data, linkName_data] at hd
    have hd' : (n1.data ++ '.' :: k1.data.take 8) ++ ['.', 'l', 'i', 'n', 'k'] =
        (n2.data ++ '.' :: k2.data.take 8) ++ ['.', 'l', 'i', 'n', 'k'] := by
      simpa using hd
    obtain ⟨hn, hk⟩ := append_sep_inj '.' _ _ _ _ h1 h2 (List.append_cancel_right hd')
    exact ⟨String.ext hn, hk⟩
  · rintro ⟨rfl, hk⟩
    apply String.ext
    rw [linkName_data, linkName_data, hk]

/-- Witness of C7 as amended: two steps signed by the same key. -/
theorem linkName_eq_iff_witness :
    '.' ∉ "0123456789abcdef".data.take 8 ∧
    (linkName "build" "0123456789abcdef" = linkName "test" "0123456789abcdef" ↔
      "build" = "test" ∧ "0123456789abcdef".data.take 8 = "0123456789abcdef".data.take 8) :=
  ⟨by decide,
    linkName_eq_iff "build" "test" "0123456789abcdef" "0123456789abcdef" (by decide)
      (by decide)⟩

/-! ### `getKeyCert` -/

/-- C10. When `keyPath` and `certPath` are both empty `getKeyCert` returns the
error "key or cert must be provided", having made no file-system call and left
the world untouched, and leaves `funConf` with `key` and `cert` reset to the
zero key.  Consequently, whenever it returns no error, `keyPath` or `certPath`
is non-empty. -/
theorem getKeyCert_requires_key_or_cert {W : Type} (X : Ext W) (funConf : FunConf) (w : W) :
    (funConf.keyPath = "" ∧ funConf.certPath = "" →
      (getKeyCert X funConf w).ret.1 = some (.errorf "key or cert must be provided") ∧
      (getKeyCert X funConf w).trace = [] ∧
      (getKeyCert X funConf w).world = w ∧
      (getKeyCert X funConf w).ret.2 = { funConf with key := Key.zero, cert := Key.zero }) ∧
    ((getKeyCert X funConf w).ret.1 = none →
      funConf.keyPath ≠ "" ∨ funConf.certPath ≠ "") := by
  have hfirst : funConf.keyPath = "" ∧ funConf.certPath = "" →
      (getKeyCert X funConf w).ret.1 = some (.errorf "key or cert must be provided") ∧
      (getKeyCert X funConf w).trace = [] ∧
      (getKeyCert X funConf w).world = w ∧
      (getKeyCert X funConf w).ret.2 = { funConf with key := Key.zero, cert := Key.zero } := by
    rintro ⟨hk, hc⟩
    simp [getKeyCert, hk, hc]
  refine ⟨hfirst, fun hok => ?_⟩
  by_contra hne
  have hboth : funConf.keyPath = "" ∧ funConf.certPath = "" := by
    constructor
    · by_contra h; exact hne (Or.inl h)
    · by_contra h; exact hne (Or.inr h)
  rw [(hfirst hboth).1] at hok
  cases hok

/-- Witness of C10: the sample configuration names neither a key nor a
certificate. -/
theorem getKeyCert_requires_key_or_cert_witness :
    (sampleConf.keyPath = "" ∧ sampleConf.certPath = "") ∧
    (getKeyCert sampleExt sampleConf []).ret.1 =
      some (.errorf "key or cert must be provided") ∧
    (getKeyCert sampleExt sampleConf []).trace = [] ∧
    (getKeyCert sampleExt sampleConf []).world = [] ∧
    (getKeyCert sampleExt sampleConf []).ret.2 =
      { sampleConf with key := Key.zero, cert := Key.zero } :=
  ⟨⟨rfl, rfl⟩, (getKeyCert_requires_key_or_cert sampleExt sampleConf []).1 ⟨rfl, rfl⟩⟩

end NoToto
